import Mathlib

/-!
# Candle auction contract: a shallow embedding and its verification

This file embeds the candle-auction contract of `src/src/lib.rs` (the
`candle_auction` module, with its entropy module `src/src/entropy.rs`) into
Lean and proves the specification claims about it.

Modelling conventions:
* `AccountId` and `Hash` become `Nat`; `Balance` and `BlockNumber` become `Nat`
  (block numbers and balances never overflow in the scenarios quantified over,
  and ink contracts are built with overflow checks, which trap and revert).
* The contract's `StorageHashMap<AccountId, Balance>` becomes an association
  list `List (Nat × Nat)` with `lookup` / `insertKey` / `removeKey` /
  `modifyKey` / `modifyOrInsert` mirroring `get` / `insert` / `take` /
  `entry(..).and_modify` / `entry(..).and_modify(..).or_insert`.
* The `StorageVec<Option<(AccountId, Balance)>>` (winning data track) becomes
  `List (Option (Nat × Nat))`; `StorageVec::set`, which fails with
  `IndexOutOfBounds`, is modelled by an explicit bounds test before `List.set`.
* Rust panics / `expect` / `assert!` are modelled by `Option`/result values
  whose failure case means "the call traps"; the hosting runtime
  (pallet-contracts) rolls the whole transaction back on a trap, so at the
  exposed-message level a trap leaves the persisted state unchanged.
* Fund transfers out of the contract are recorded as an output list of
  `(recipient, amount)` pairs; the external transfer primitive is assumed to
  succeed (it aborts — reverting everything — rather than partially apply).
* The randomness oracle `random(seed) -> (raw_hash, known_since)` is modelled
  by passing the decoded raw draw and `known_since` as explicit arguments.
-/

/-- `Status` of `src/src/lib.rs` (auction phase). -/
inductive Status where
  | NotStarted : Status
  | OpeningPeriod : Status
  | EndingPeriod : Nat → Status
  | Ended : Status
  | RfDelay : Nat → Status
deriving DecidableEq

/-- `Error` of `src/src/lib.rs` (bid faults). -/
inductive BidError where
  | AuctionNotActive : BidError
  | NotOutBidding : Nat → Nat → BidError
  | WinningDataCorrupted : BidError
deriving DecidableEq

/-- Storage of the `CandleAuction` contract (`#[ink(storage)]` struct). -/
structure AuctionState where
  owner : Nat
  start_block : Nat
  opening_period : Nat
  ending_period : Nat
  balances : List (Nat × Nat)
  winning : Option Nat
  winner : Option (Nat × Nat)
  finalized : Bool
  winning_data : List (Option (Nat × Nat))
  reward_contract_address : Nat
  subject : Nat
  domain : Nat
deriving DecidableEq

/-- Association-list lookup, mirroring `StorageHashMap::get`. -/
def lookup : List (Nat × Nat) → Nat → Option Nat
  | [], _ => none
  | (k, v) :: t, a => if k = a then some v else lookup t a

/-- Remove every binding of a key, mirroring the removal effect of
`StorageHashMap::take`. -/
def removeKey : List (Nat × Nat) → Nat → List (Nat × Nat)
  | [], _ => []
  | (k, v) :: t, a => if k = a then removeKey t a else (k, v) :: removeKey t a

/-- Insert or replace a binding, mirroring `StorageHashMap::insert`. -/
def insertKey (bs : List (Nat × Nat)) (a v : Nat) : List (Nat × Nat) :=
  (a, v) :: removeKey bs a

/-- `entry(a).and_modify(f)`: apply `f` when a binding exists, else no-op. -/
def modifyKey (bs : List (Nat × Nat)) (a : Nat) (f : Nat → Nat) : List (Nat × Nat) :=
  match lookup bs a with
  | some v => insertKey bs a (f v)
  | none => bs

/-- `entry(a).and_modify(f).or_insert(d)`: apply `f` when a binding exists,
else bind `a` to `d`. -/
def modifyOrInsert (bs : List (Nat × Nat)) (a : Nat) (f : Nat → Nat) (d : Nat) :
    List (Nat × Nat) :=
  match lookup bs a with
  | some v => insertKey bs a (f v)
  | none => insertKey bs a d

/-- Balance of an account, defaulting to 0 (`get(..).unwrap_or(&0)`). -/
def getBal (bs : List (Nat × Nat)) (a : Nat) : Nat :=
  (lookup bs a).getD 0

/-- `RF_DELAY` of `src/src/entropy.rs`: blocks to wait for mature randomness. -/
def RF_DELAY : Nat := 81

/-- Constructor `CandleAuction::new`.  `none` means the constructor panics
(unsupported subject, or a start block that is not strictly in the future).
`start_block?.getD (now + 1)` mirrors `start_block.unwrap_or(now + 1)`. -/
def newAuction (start_block? : Option Nat) (opening_period ending_period : Nat)
    (subject : Nat) (domain : Nat) (reward_contract_address : Nat)
    (owner now : Nat) : Option AuctionState :=
  if 1 < subject then none
  else
    let start_in := start_block?.getD (now + 1)
    if start_in ≤ now then
      none
    else
      some
        { owner := owner
          start_block := start_in
          opening_period := opening_period
          ending_period := ending_period
          balances := []
          winning := none
          winner := none
          finalized := false
          winning_data := List.replicate (ending_period + 1) none
          reward_contract_address := reward_contract_address
          subject := subject
          domain := domain }

/-- `CandleAuction::status`: derive the auction phase from the block number
and the finalization flag. -/
def status (s : AuctionState) (block : Nat) : Status :=
  let opening_period_last_block := s.start_block + s.opening_period - 1
  let ending_period_last_block := opening_period_last_block + s.ending_period
  if s.start_block ≤ block then
    if opening_period_last_block < block then
      if ending_period_last_block < block then
        if s.finalized then Status.Ended
        else Status.RfDelay (block - ending_period_last_block - 1)
      else
        Status.EndingPeriod (block - opening_period_last_block)
    else
      Status.OpeningPeriod
  else
    Status.NotStarted

/-- Outcome of `CandleAuction::handle_bid`: the result value, the contract
state as left by the method body, and the outgoing transfers it performed. -/
structure BidRes where
  result : Except BidError Unit
  state : AuctionState
  transfers : List (Nat × Nat)

deriving instance DecidableEq for Except

deriving instance DecidableEq for BidRes

/-- The slot an active-phase bid writes to: 0 in `OpeningPeriod`, the ending
offset in `EndingPeriod`, none (fail with `AuctionNotActive`) otherwise.
This is the `match auction_status` at the top of `handle_bid`. -/
def activeOffset (s : AuctionState) (block : Nat) : Option Nat :=
  match status s block with
  | Status.OpeningPeriod => some 0
  | Status.EndingPeriod o => some o
  | _ => none

/-- The acceptance tail of `handle_bid`: refund the bidder's previous escrow
(`balances.take` + `transfer`), record the new bid, make the bidder the
current `winning` bidder, and write the snapshot slot.  An out-of-bounds slot
yields `WinningDataCorrupted`; as in the source, the ledger and `winning`
mutations have already happened by then (the exposed message traps on the
error, so the host reverts them — see `bid_msg`). -/
def acceptBid (s : AuctionState) (bidder bid offset : Nat) : BidRes :=
  let old := lookup s.balances bidder
  let transfers := match old with
    | some ob => [(bidder, ob)]
    | none => []
  let s1 : AuctionState :=
    { s with balances := insertKey (removeKey s.balances bidder) bidder bid
             winning := some bidder }
  if offset < s1.winning_data.length then
    { result := Except.ok ()
      state :=
        { s1 with winning_data := s1.winning_data.set offset (some (bidder, bid)) }
      transfers := transfers }
  else
    { result := Except.error BidError.WinningDataCorrupted
      state := s1
      transfers := transfers }

/-- `CandleAuction::handle_bid`. -/
def handle_bid (s : AuctionState) (bidder bid block : Nat) : BidRes :=
  match activeOffset s block with
  | none => { result := Except.error BidError.AuctionNotActive, state := s, transfers := [] }
  | some offset =>
    match s.winning with
    | some w =>
      let winning_balance := getBal s.balances w
      if bid < winning_balance then
        { result := Except.error (BidError.NotOutBidding bid winning_balance)
          state := s
          transfers := [] }
      else
        acceptBid s bidder bid offset
    | none => acceptBid s bidder bid offset

/-- The exposed `bid` message: it panics on any `handle_bid` error, and a
panic makes the hosting runtime roll the whole transaction back, so the
persisted state is the caller's state and no transfer survives.  Returns
(trap error if any, persisted state, persisted transfers). -/
def bid_msg (s : AuctionState) (bidder bid block : Nat) :
    Option BidError × AuctionState × List (Nat × Nat) :=
  match handle_bid s bidder bid block with
  | { result := Except.error e, state := _, transfers := _ } => (some e, s, [])
  | { result := Except.ok _, state := s', transfers := tr } => (none, s', tr)

/-- The backward scan of `blow_candle`:
`for i in (0..offset + 1).rev() { if let Some(Some((w, b))) = winning_data.get(i) ... }`.
Scans indices `i, i-1, …, 0` and returns the first non-empty entry. -/
def scanTrack (track : List (Option (Nat × Nat))) : Nat → Option (Nat × Nat)
  | 0 =>
    match track.get? 0 with
    | some (some wb) => some wb
    | _ => none
  | i + 1 =>
    match track.get? (i + 1) with
    | some (some wb) => some wb
    | _ => scanTrack track i

/-- `CandleAuction::blow_candle`, with the randomness oracle's output passed
in as the decoded raw draw `raw` and its `known_since` block.  Outer `none`
means the method panics (`expect` on an immature draw); `some r` means it
returns `r`. -/
def blow_candle (s : AuctionState) (raw known_since : Nat) :
    Option (Option (Nat × Nat)) :=
  let opening_period_last_block := s.start_block + s.opening_period - 1
  let ending_period_last_block := opening_period_last_block + s.ending_period
  if ending_period_last_block ≤ known_since then
    let offset := raw % s.ending_period + 1
    some (scanTrack s.winning_data offset)
  else
    none

/-- `CandleAuction::detect_winner` (the body of `find_winner`), with the
random draw passed explicitly.  Outer `none` means the call panics (the
immature-draw `expect` inside `blow_candle`); `some (r, s')` means it returns
`r` leaving state `s'`. -/
def detect_winner (s : AuctionState) (raw known_since block : Nat) :
    Option (Option (Nat × Nat) × AuctionState) :=
  match s.winner with
  | some w => some (some w, s)
  | none =>
    match status s block with
    | Status.RfDelay blocks =>
      if RF_DELAY ≤ blocks then
        if s.winning.isSome then
          match blow_candle s raw known_since with
          | none => none
          | some wd =>
            let s1 : AuctionState :=
              match wd with
              | some (w, b) =>
                { s with
                    winner := some (w, b)
                    balances :=
                      modifyOrInsert
                        (modifyKey s.balances w (fun x => x - b))
                        s.owner (fun x => x + b) b }
              | none => { s with winner := none }
            some (wd, { s1 with finalized := true })
        else some (none, s)
      else some (none, s)
    | _ => some (s.winner, s)

/-- The exposed `find_winner` message with trap/revert semantics: the Bool is
true when the call trapped (immature draw), in which case the host reverts
and the persisted state is the caller's state. -/
def find_winner_msg (s : AuctionState) (raw known_since block : Nat) :
    Bool × Option (Nat × Nat) × AuctionState :=
  match detect_winner s raw known_since block with
  | none => (true, none, s)
  | some (r, s') => (false, r, s')

/-- `CandleAuction::pay_back` (the body of the `payout` message) for caller
`to`.  `none` means the call panics (auction not `Ended`, or no winner
detected); `some (s', transfers)` is the state and refunds on success.  The
winner's external reward dispatch is assumed to succeed (its failure panics,
which the host turns into a full revert, i.e. an unchanged state). -/
def pay_back (s : AuctionState) (caller block : Nat) :
    Option (AuctionState × List (Nat × Nat)) :=
  if status s block = Status.Ended then
    match s.winner with
    | none => none
    | some _ =>
      match lookup s.balances caller with
      | none => some (s, [])
      | some bal =>
        if 0 < bal then
          some ({ s with balances := removeKey s.balances caller }, [(caller, bal)])
        else
          some ({ s with balances := removeKey s.balances caller }, [])
  else
    none

/-- `CandleAuction::get_winning`: the current leading bidder with her bid.
`none` means the method panics (the `unwrap` of the leading bidder's balance
found no ledger entry); `some r` means it returns `r`. -/
def get_winning (s : AuctionState) : Option (Option (Nat × Nat)) :=
  match s.winning with
  | none => some none
  | some w =>
    match lookup s.balances w with
    | none => none
    | some b => some (some (w, b))

/-- States reachable through the contract's exposed operations: a freshly
constructed auction, followed by successful `bid`, `find_winner` and `payout`
calls.  Trapped calls revert to the pre-call state and so add no states. -/
inductive Reachable : AuctionState → Prop where
  | init (start_block? : Option Nat) (opening_period ending_period : Nat)
      (subject domain reward_contract_address owner now : Nat)
      (s : AuctionState)
      (h : newAuction start_block? opening_period ending_period subject domain
            reward_contract_address owner now = some s) :
      Reachable s
  | bid (s : AuctionState) (bidder bid block : Nat) (s' : AuctionState)
      (tr : List (Nat × Nat)) (hs : Reachable s)
      (h : bid_msg s bidder bid block = (none, s', tr)) :
      Reachable s'
  | findWinner (s : AuctionState) (raw known_since block : Nat)
      (r : Option (Nat × Nat)) (s' : AuctionState) (hs : Reachable s)
      (h : detect_winner s raw known_since block = some (r, s')) :
      Reachable s'
  | payout (s : AuctionState) (caller block : Nat) (s' : AuctionState)
      (tr : List (Nat × Nat)) (hs : Reachable s)
      (h : pay_back s caller block = some (s', tr)) :
      Reachable s'

/-- Sample auction used to instantiate hypothetical theorems: the auction of
the repository's `auction_statuses_returned_correctly` test
(`start = 2`, `opening = 4`, `ending = 7`). -/
def sampleAuction : AuctionState :=
  { owner := 3
    start_block := 2
    opening_period := 4
    ending_period := 7
    balances := []
    winning := none
    winner := none
    finalized := false
    winning_data := List.replicate 8 none
    reward_contract_address := 6
    subject := 0
    domain := 0 }

/-- Modelled from the spec's words (§4.3 steps 6–7), for comparison with the
source's `blow_candle`: scan `SnapshotTrack[cutoff], …, SnapshotTrack[0]` in
that order and return the first non-empty entry found. -/
def specScanList (track : List (Option (Nat × Nat))) (cutoff : Nat) :
    Option (Nat × Nat) :=
  ((List.range (cutoff + 1)).reverse).findSome? (fun i => (track.get? i).bind id)

/-- The state reached by the spec's concrete scenario (§8): `start = 2`,
`opening = 4`, `ending = 7`, after the five bids of the scenario
(Alice = 1, Bob = 2, owner = 3). -/
def scenarioState : AuctionState :=
  { owner := 3
    start_block := 2
    opening_period := 4
    ending_period := 7
    balances := [(1, 104), (2, 103)]
    winning := some 1
    winner := none
    finalized := false
    winning_data :=
      [some (2, 101), none, some (1, 102), none, some (2, 103), none,
        some (1, 104), none]
    reward_contract_address := 6
    subject := 0
    domain := 0 }

/-- The scenario auction with an (artificially) empty snapshot track, used to
exercise the defensive `WinningDataCorrupted` branch. -/
def shortTrackState : AuctionState :=
  { scenarioState with winning_data := [] }

/-! ## Concrete runs used by C5, C6 and C7 -/

/-- A freshly constructed auction: `start = 1`, `opening = 1`, `ending = 2`,
owner 0, reward contract 6. -/
def c5Init : AuctionState :=
  { owner := 0
    start_block := 1
    opening_period := 1
    ending_period := 2
    balances := []
    winning := none
    winner := none
    finalized := false
    winning_data := [none, none, none]
    reward_contract_address := 6
    subject := 0
    domain := 0 }

/-- `c5Init` after Alice (account 1) bids 100 at block 3 (ending offset 2). -/
def c5Bid : AuctionState :=
  { c5Init with
      balances := [(1, 100)]
      winning := some 1
      winning_data := [none, none, some (1, 100)] }

/-- `c5Bid` after a successful `find_winner` whose candle cutoff (1) precedes
the only recorded bid (slot 2): finalized with no winner. -/
def c5Final : AuctionState :=
  { c5Bid with finalized := true }

/-- `c5Init` after Alice (account 1) bids 100 at block 1 (the opening
period, slot 0). -/
def c7Bid1 : AuctionState :=
  { c5Init with
      balances := [(1, 100)]
      winning := some 1
      winning_data := [some (1, 100), none, none] }

/-- `c7Bid1` after Alice re-bids 101 at block 3 (ending offset 2): her 100 is
refunded and replaced by 101; slot 0 still records her earlier `(1, 100)`. -/
def c7Bid2 : AuctionState :=
  { c5Init with
      balances := [(1, 101)]
      winning := some 1
      winning_data := [some (1, 100), none, some (1, 101)] }

/-- `c7Bid2` after resolution at block 85 with a mature draw of cutoff 1: the
scan finds `(1, 100)` at slot 0, Alice's escrow 101 is decremented by the
winning 100 (leaving change 1), and the owner receives 100. -/
def c7Final : AuctionState :=
  { c5Init with
      balances := [(0, 100), (1, 1)]
      winning := some 1
      winner := some (1, 100)
      finalized := true
      winning_data := [some (1, 100), none, some (1, 101)] }

/-! ## Association-list lemmas -/

lemma lookup_removeKey_self (bs : List (Nat × Nat)) (a : Nat) :
    lookup (removeKey bs a) a = none := by
  induction bs with
  | nil => rfl
  | cons p t ih =>
    obtain ⟨k, v⟩ := p
    by_cases hk : k = a
    · simpa [removeKey, hk] using ih
    · simpa [removeKey, lookup, hk] using ih

lemma lookup_removeKey_ne (bs : List (Nat × Nat)) (a a' : Nat) (h : a' ≠ a) :
    lookup (removeKey bs a) a' = lookup bs a' := by
  induction bs with
  | nil => rfl
  | cons p t ih =>
    obtain ⟨k, v⟩ := p
    by_cases hk : k = a
    · subst hk
      simpa [removeKey, lookup, Ne.symm h] using ih
    · by_cases hk' : k = a'
      · simp [removeKey, lookup, hk, hk', h]
      · simpa [removeKey, lookup, hk, hk'] using ih

lemma lookup_insertKey_self (bs : List (Nat × Nat)) (a v : Nat) :
    lookup (insertKey bs a v) a = some v := by
  simp [insertKey, lookup]

lemma lookup_insertKey_ne (bs : List (Nat × Nat)) (a v a' : Nat) (h : a' ≠ a) :
    lookup (insertKey bs a v) a' = lookup bs a' := by
  simp [insertKey, lookup, Ne.symm h, lookup_removeKey_ne bs a a' h]

lemma get?_set_self {α : Type} (l : List α) (i : Nat) (x : α) (h : i < l.length) :
    (l.set i x).get? i = some x := by
  induction l generalizing i with
  | nil => simp at h
  | cons y t ih =>
    cases i with
    | zero => rfl
    | succ j =>
      simp only [List.set, List.get?]
      exact ih j (by simpa using h)

/-! ## Inversion of the resolver -/

/-- Inversion for a non-trapping `detect_winner` call on an unresolved
auction: either the call was a no-op (wrong phase, immature delay counter, or
no bid to resolve), or the candle was blown: the status was `RfDelay` with at
least `RF_DELAY` blocks elapsed, a leading bidder existed, the draw was
mature, the returned value is the backward scan at the random cutoff, and the
new state is finalized with that value as winner (with the escrow moves when
a winner was found). -/
lemma detect_winner_inv (s : AuctionState) (raw ks block : Nat)
    (r : Option (Nat × Nat)) (s' : AuctionState)
    (hwinner : s.winner = none)
    (h : detect_winner s raw ks block = some (r, s')) :
    (s' = s ∧ r = none) ∨
    (∃ blocks, status s block = Status.RfDelay blocks ∧ RF_DELAY ≤ blocks ∧
      s.winning.isSome = true ∧
      s.start_block + s.opening_period - 1 + s.ending_period ≤ ks ∧
      r = scanTrack s.winning_data (raw % s.ending_period + 1) ∧
      s' =
        (match r with
         | some (w, b) =>
           { s with
               winner := some (w, b)
               balances :=
                 modifyOrInsert (modifyKey s.balances w (fun x => x - b))
                   s.owner (fun x => x + b) b
               finalized := true }
         | none => { s with winner := none, finalized := true })) := by
  simp only [detect_winner, hwinner] at h
  split at h
  case _ blocks hst =>
    by_cases hrf : RF_DELAY ≤ blocks
    · rw [if_pos hrf] at h
      by_cases hwing : s.winning.isSome = true
      · rw [if_pos hwing] at h
        rcases hbc : blow_candle s raw ks with _ | wd
        · rw [hbc] at h
          exact absurd h (by simp)
        · rw [hbc] at h
          have hmat : s.start_block + s.opening_period - 1 + s.ending_period ≤ ks := by
            by_contra hmat
            have : blow_candle s raw ks = none := by
              simp only [blow_candle]
              rw [if_neg hmat]
            rw [this] at hbc
            exact absurd hbc (by simp)
          have hwd : wd = scanTrack s.winning_data (raw % s.ending_period + 1) := by
            have : blow_candle s raw ks =
                some (scanTrack s.winning_data (raw % s.ending_period + 1)) := by
              simp only [blow_candle]
              rw [if_pos hmat]
            rw [this] at hbc
            exact (Option.some.inj hbc).symm
          simp only at h
          injection h with h'
          injection h' with h1 h2
          refine Or.inr ⟨blocks, hst, hrf, hwing, hmat, h1 ▸ hwd, ?_⟩
          subst h1
          rcases wd with _ | ⟨w, b⟩
          · exact h2.symm
          · exact h2.symm
      · rw [if_neg hwing] at h
        injection h with h'
        injection h' with h1 h2
        exact Or.inl ⟨h2.symm, h1.symm⟩
    · rw [if_neg hrf] at h
      injection h with h'
      injection h' with h1 h2
      exact Or.inl ⟨h2.symm, h1.symm⟩
  case _ hne =>
    injection h with h'
    injection h' with h1 h2
    exact Or.inl ⟨h2.symm, h1.symm⟩

/-! ## State-preservation helpers -/

lemma acceptBid_oob (s : AuctionState) (bidder bid offset : Nat)
    (hlen : ¬ offset < s.winning_data.length) :
    (acceptBid s bidder bid offset).result =
      Except.error BidError.WinningDataCorrupted := by
  simp only [acceptBid]
  rw [if_neg (show ¬ offset < _ from hlen)]

lemma handle_bid_ok_eq (s : AuctionState) (bidder bid block : Nat)
    (hok : (handle_bid s bidder bid block).result = Except.ok ()) :
    ∃ offset, handle_bid s bidder bid block = acceptBid s bidder bid offset ∧
      offset < s.winning_data.length := by
  rcases hao : activeOffset s block with _ | offset
  · have hres : (handle_bid s bidder bid block).result =
        Except.error BidError.AuctionNotActive := by
      simp only [handle_bid, hao]
    rw [hres] at hok
    simp at hok
  · have hhb : handle_bid s bidder bid block = acceptBid s bidder bid offset := by
      rcases hw : s.winning with _ | w
      · simp only [handle_bid, hao, hw]
      · by_cases hlt : bid < getBal s.balances w
        · exfalso
          have hres : (handle_bid s bidder bid block).result =
              Except.error (BidError.NotOutBidding bid (getBal s.balances w)) := by
            simp only [handle_bid, hao, hw, if_pos hlt]
          rw [hres] at hok
          simp at hok
        · simp only [handle_bid, hao, hw, if_neg hlt]
    refine ⟨offset, hhb, ?_⟩
    by_cases hlen : offset < s.winning_data.length
    · exact hlen
    · exfalso
      have hres := acceptBid_oob s bidder bid offset hlen
      rw [hhb, hres] at hok
      simp at hok

lemma handle_bid_ok_state (s : AuctionState) (bidder bid block : Nat)
    (hok : (handle_bid s bidder bid block).result = Except.ok ()) :
    (handle_bid s bidder bid block).state.winning = some bidder ∧
    lookup (handle_bid s bidder bid block).state.balances bidder = some bid ∧
    (handle_bid s bidder bid block).state.finalized = s.finalized ∧
    (handle_bid s bidder bid block).state.winner = s.winner := by
  obtain ⟨offset, hhb, hlen⟩ := handle_bid_ok_eq s bidder bid block hok
  rw [hhb]
  simp only [acceptBid]
  rw [if_pos (show offset < _ from hlen)]
  exact ⟨rfl, lookup_insertKey_self _ _ _, rfl, rfl⟩

lemma bid_msg_state (s : AuctionState) (bidder bid block : Nat)
    (e : Option BidError) (ps : AuctionState) (tr : List (Nat × Nat))
    (h : bid_msg s bidder bid block = (e, ps, tr)) :
    ps.finalized = s.finalized ∧ ps.winner = s.winner ∧
    (e = none → ps.winning = some bidder ∧ lookup ps.balances bidder = some bid) := by
  unfold bid_msg at h
  rcases hv : handle_bid s bidder bid block with ⟨res, st, trs⟩
  rw [hv] at h
  rcases res with e0 | u
  · simp only [Prod.mk.injEq] at h
    obtain ⟨he, hps, _⟩ := h
    rw [← hps]
    exact ⟨rfl, rfl, fun hne => absurd (hne ▸ he.symm) (by simp)⟩
  · cases u
    have hok : (handle_bid s bidder bid block).result = Except.ok () := by
      rw [hv]
    obtain ⟨h1, h2, h3, h4⟩ := handle_bid_ok_state s bidder bid block hok
    rw [hv] at h1 h2 h3 h4
    simp only [Prod.mk.injEq] at h
    obtain ⟨_, hps, _⟩ := h
    rw [← hps]
    exact ⟨h3, h4, fun _ => ⟨h1, h2⟩⟩

lemma pay_back_state (s : AuctionState) (caller block : Nat)
    (ps : AuctionState) (tr : List (Nat × Nat))
    (h : pay_back s caller block = some (ps, tr)) :
    status s block = Status.Ended ∧ ps.finalized = s.finalized ∧
    ps.winning = s.winning ∧ ps.winner = s.winner := by
  unfold pay_back at h
  by_cases hst : status s block = Status.Ended
  · refine ⟨hst, ?_⟩
    rw [if_pos hst] at h
    rcases hw : s.winner with _ | wpair
    · rw [hw] at h
      exact absurd h (by simp)
    · rw [hw] at h
      simp only at h
      rcases hl : lookup s.balances caller with _ | bal
      · rw [hl] at h
        simp only at h
        injection h with h'
        injection h' with h1 h2
        rw [← h1]
        exact ⟨rfl, rfl, hw⟩
      · rw [hl] at h
        simp only at h
        by_cases hbal : 0 < bal
        · rw [if_pos hbal] at h
          injection h with h'
          injection h' with h1 h2
          rw [← h1]
          exact ⟨rfl, rfl, rfl⟩
        · rw [if_neg hbal] at h
          injection h with h'
          injection h' with h1 h2
          rw [← h1]
          exact ⟨rfl, rfl, rfl⟩
  · rw [if_neg hst] at h
    exact absurd h (by simp)

lemma status_Ended_finalized (s : AuctionState) (block : Nat)
    (h : status s block = Status.Ended) : s.finalized = true := by
  by_contra hf
  have hf' : s.finalized = false := by
    cases hfin : s.finalized
    · rfl
    · exact absurd hfin hf
  unfold status at h
  rw [hf'] at h
  by_cases h1 : s.start_block ≤ block
  · rw [if_pos h1] at h
    by_cases h2 : s.start_block + s.opening_period - 1 < block
    · rw [if_pos h2] at h
      by_cases h3 : s.start_block + s.opening_period - 1 + s.ending_period < block
      · rw [if_pos h3] at h
        simp at h
      · rw [if_neg h3] at h
        simp at h
    · rw [if_neg h2] at h
      simp at h
  · rw [if_neg h1] at h
    simp at h

/-! ## Claim theorems, witnesses and counterexamples -/

/-- C1: phase derivation.  For every auction with `opening_period ≥ 1` and
every block number `now`: `NotStarted` strictly before `start_block`;
`OpeningPeriod` on `[start, start+opening-1]`; `EndingPeriod offset` with
`offset = now - (start+opening-1)` ranging over `1..=ending` throughout the
ending window; past the ending window, `RfDelay (now - (start+opening+ending))`
while unfinalized and `Ended` once finalized. -/
theorem status_phases (s : AuctionState) (now : Nat)
    (hop : 1 ≤ s.opening_period) :
    (now < s.start_block → status s now = Status.NotStarted) ∧
    (s.start_block ≤ now → now ≤ s.start_block + s.opening_period - 1 →
      status s now = Status.OpeningPeriod) ∧
    (s.start_block + s.opening_period ≤ now →
      now ≤ s.start_block + s.opening_period + s.ending_period - 1 →
      status s now =
          Status.EndingPeriod (now - (s.start_block + s.opening_period - 1)) ∧
        1 ≤ now - (s.start_block + s.opening_period - 1) ∧
        now - (s.start_block + s.opening_period - 1) ≤ s.ending_period) ∧
    (s.start_block + s.opening_period + s.ending_period - 1 < now →
      s.finalized = false →
      status s now =
        Status.RfDelay (now - (s.start_block + s.opening_period + s.ending_period))) ∧
    (s.start_block + s.opening_period + s.ending_period - 1 < now →
      s.finalized = true → status s now = Status.Ended) := by
  unfold status
  refine ⟨?_, ?_, ?_, ?_, ?_⟩
  · intro h
    rw [if_neg (by omega)]
  · intro h1 h2
    rw [if_pos (by omega), if_neg (by omega)]
  · intro h1 h2
    refine ⟨?_, by omega, by omega⟩
    rw [if_pos (by omega), if_pos (by omega), if_neg (by omega)]
  · intro h1 h2
    rw [if_pos (by omega), if_pos (by omega), if_pos (by omega), h2]
    simp only [Bool.false_eq_true, if_false]
    congr 1
    omega
  · intro h1 h2
    rw [if_pos (by omega), if_pos (by omega), if_pos (by omega), h2, if_pos rfl]

/-- Witness for C1: all five phase cases evaluated on the sample auction. -/
theorem status_phases_witness :
    status sampleAuction 1 = Status.NotStarted ∧
    status sampleAuction 5 = Status.OpeningPeriod ∧
    status sampleAuction 12 = Status.EndingPeriod 7 ∧
    status sampleAuction 14 = Status.RfDelay 1 := by
  refine ⟨?_, ?_, ?_, ?_⟩
  · exact (status_phases sampleAuction 1 (by decide)).1 (by decide)
  · exact (status_phases sampleAuction 5 (by decide)).2.1 (by decide) (by decide)
  · exact ((status_phases sampleAuction 12 (by decide)).2.2.1 (by decide) (by decide)).1
  · exact (status_phases sampleAuction 14 (by decide)).2.2.2.1 (by decide) rfl

/-! ## C2: the candle resolver's cutoff and backward scan -/

lemma scanTrack_eq_specScanList (track : List (Option (Nat × Nat))) :
    ∀ n, scanTrack track n = specScanList track n := by
  intro n
  induction n with
  | zero =>
    unfold specScanList
    rw [show (List.range 1).reverse = [0] from rfl, List.findSome?_cons]
    unfold scanTrack
    rcases htr : track.get? 0 with _ | _ | wb <;> rfl
  | succ m ih =>
    unfold specScanList
    rw [show (List.range (m + 2)).reverse =
          (m + 1) :: (List.range (m + 1)).reverse by simp [List.range_succ],
        List.findSome?_cons]
    unfold scanTrack
    have ih' : ((List.range (m + 1)).reverse).findSome?
        (fun i => (track.get? i).bind id) = scanTrack track m := ih.symm
    rw [ih']
    rcases htr : track.get? (m + 1) with _ | _ | wb <;> rfl

/-- C2: on a mature draw, `blow_candle` computes
`cutoff = raw % ending_period + 1` and returns exactly the spec's backward
scan (first non-empty track entry at indices `cutoff, cutoff-1, …, 0`);
and on the spec's concrete track a draw with cutoff 5 resolves to
`(Bob, 103)`. -/
theorem blow_candle_scan (s : AuctionState) (raw known_since : Nat)
    (hmature : s.start_block + s.opening_period - 1 + s.ending_period ≤ known_since) :
    blow_candle s raw known_since =
      some (specScanList s.winning_data (raw % s.ending_period + 1)) ∧
    blow_candle scenarioState 4 100 = some (some (2, 103)) := by
  constructor
  · simp only [blow_candle]
    rw [if_pos hmature, scanTrack_eq_specScanList]
  · rfl

/-- Witness for C2: the generic conjunct applied to the scenario state with a
mature draw (`raw = 4`, so cutoff `= 4 % 7 + 1 = 5`). -/
theorem blow_candle_scan_witness :
    blow_candle scenarioState 4 100 =
      some (specScanList scenarioState.winning_data (4 % 7 + 1)) :=
  (blow_candle_scan scenarioState 4 100 (by decide)).1

/-! ## C3: the outbidding rule -/

/-- C3: during an active phase with a leading bidder `w` whose escrow is
`current_leading`, a bid is rejected with
`NotOutBidding (bid, current_leading)` — leaving the state unchanged and
performing no transfer — exactly when `bid < current_leading`; a bid with
`current_leading ≤ bid` (in particular an exact tie) is accepted and its
submitter becomes the leading bidder. -/
theorem bid_outbidding (s : AuctionState) (bidder bid block offset w : Nat)
    (hactive : activeOffset s block = some offset)
    (hw : s.winning = some w)
    (hlen : offset < s.winning_data.length) :
    (((handle_bid s bidder bid block).result =
        Except.error (BidError.NotOutBidding bid (getBal s.balances w)) ∧
      (handle_bid s bidder bid block).state = s ∧
      (handle_bid s bidder bid block).transfers = []) ↔
      bid < getBal s.balances w) ∧
    (getBal s.balances w ≤ bid →
      (handle_bid s bidder bid block).result = Except.ok () ∧
      (handle_bid s bidder bid block).state.winning = some bidder) := by
  have hb : handle_bid s bidder bid block =
      if bid < getBal s.balances w then
        { result := Except.error (BidError.NotOutBidding bid (getBal s.balances w))
          state := s
          transfers := [] }
      else acceptBid s bidder bid offset := by
    unfold handle_bid
    rw [hactive, hw]
  by_cases hlt : bid < getBal s.balances w
  · rw [hb, if_pos hlt]
    refine ⟨⟨fun _ => hlt, fun _ => ⟨rfl, rfl, rfl⟩⟩, fun hle => absurd hlt (by omega)⟩
  · rw [hb, if_neg hlt]
    have hacc : (acceptBid s bidder bid offset).result = Except.ok () ∧
        (acceptBid s bidder bid offset).state.winning = some bidder := by
      unfold acceptBid
      rw [if_pos (by simpa using hlen)]
      exact ⟨rfl, rfl⟩
    constructor
    · constructor
      · intro hcontr
        rw [hacc.1] at hcontr
        exact absurd hcontr.1 (by simp)
      · intro hcontr
        exact absurd hcontr hlt
    · intro _
      exact hacc

/-- Witness for C3: on the scenario state (leading bidder Alice with 104)
at an ending-period block, a bid of 103 is rejected as `NotOutBidding` and a
tie bid of 104 by Bob is accepted and makes Bob leading. -/
theorem bid_outbidding_witness :
    ((handle_bid scenarioState 2 103 11).result =
        Except.error (BidError.NotOutBidding 103 104) ∧
      (handle_bid scenarioState 2 103 11).state = scenarioState ∧
      (handle_bid scenarioState 2 103 11).transfers = []) ∧
    ((handle_bid scenarioState 2 104 11).result = Except.ok () ∧
      (handle_bid scenarioState 2 104 11).state.winning = some 2) := by
  constructor
  · exact (bid_outbidding scenarioState 2 103 11 6 1 (by decide) rfl
      (by decide)).1.mpr (by decide)
  · exact (bid_outbidding scenarioState 2 104 11 6 1 (by decide) rfl
      (by decide)).2 (by decide)

/-! ## C4: accepted re-bids refund and replace -/

lemma acceptBid_accepts (s : AuctionState) (bidder bid offset old : Nat)
    (hold : lookup s.balances bidder = some old)
    (hlen : offset < s.winning_data.length) :
    (acceptBid s bidder bid offset).result = Except.ok () ∧
    (acceptBid s bidder bid offset).transfers = [(bidder, old)] ∧
    lookup (acceptBid s bidder bid offset).state.balances bidder = some bid ∧
    (acceptBid s bidder bid offset).state.winning = some bidder ∧
    (acceptBid s bidder bid offset).state.winning_data.get? offset =
      some (some (bidder, bid)) := by
  simp only [acceptBid]
  rw [hold, if_pos (show offset < _ from hlen)]
  refine ⟨rfl, rfl, ?_, rfl, ?_⟩
  · exact lookup_insertKey_self _ _ _
  · exact get?_set_self _ _ _ hlen

/-- C4: whenever a bid by a participant who already holds an escrow entry of
`old` is accepted, the refund transfer `(bidder, old)` is performed, the
participant's ledger entry is replaced by the new amount (not accumulated),
the participant becomes the leading bidder, and the snapshot slot of the
current offset is overwritten with `(bidder, bid)`. -/
theorem bid_refund_replace (s : AuctionState) (bidder bid block old : Nat)
    (hold : lookup s.balances bidder = some old)
    (hok : (handle_bid s bidder bid block).result = Except.ok ()) :
    (handle_bid s bidder bid block).transfers = [(bidder, old)] ∧
    lookup (handle_bid s bidder bid block).state.balances bidder = some bid ∧
    (handle_bid s bidder bid block).state.winning = some bidder ∧
    ∃ offset, activeOffset s block = some offset ∧
      (handle_bid s bidder bid block).state.winning_data.get? offset =
        some (some (bidder, bid)) := by
  rcases hao : activeOffset s block with _ | offset
  · have hres : (handle_bid s bidder bid block).result =
        Except.error BidError.AuctionNotActive := by
      simp only [handle_bid, hao]
    rw [hres] at hok
    simp at hok
  · have hhb : handle_bid s bidder bid block = acceptBid s bidder bid offset := by
      rcases hw : s.winning with _ | w
      · simp only [handle_bid, hao, hw]
      · by_cases hlt : bid < getBal s.balances w
        · exfalso
          have hres : (handle_bid s bidder bid block).result =
              Except.error (BidError.NotOutBidding bid (getBal s.balances w)) := by
            simp only [handle_bid, hao, hw, if_pos hlt]
          rw [hres] at hok
          simp at hok
        · simp only [handle_bid, hao, hw, if_neg hlt]
    rw [hhb] at hok ⊢
    by_cases hlen : offset < s.winning_data.length
    · obtain ⟨_, h2, h3, h4, h5⟩ := acceptBid_accepts s bidder bid offset old hold hlen
      exact ⟨h2, h3, h4, offset, rfl, h5⟩
    · exfalso
      have hres : (acceptBid s bidder bid offset).result =
          Except.error BidError.WinningDataCorrupted := by
        simp only [acceptBid]
        rw [hold, if_neg (show ¬ offset < _ from hlen)]
      rw [hres] at hok
      simp at hok

/-- Witness for C4: Alice (account 1) re-bids 105 over her recorded 104 on
the scenario state during the ending period; her old 104 is refunded, her
entry becomes 105, she leads, and slot 6 records `(1, 105)`. -/
theorem bid_refund_replace_witness :
    (handle_bid scenarioState 1 105 11).transfers = [(1, 104)] ∧
    lookup (handle_bid scenarioState 1 105 11).state.balances 1 = some 105 ∧
    (handle_bid scenarioState 1 105 11).state.winning = some 1 ∧
    ∃ offset, activeOffset scenarioState 11 = some offset ∧
      (handle_bid scenarioState 1 105 11).state.winning_data.get? offset =
        some (some (1, 105)) :=
  bid_refund_replace scenarioState 1 105 11 104 (by decide) (by decide)

/-! ## C8: an out-of-bounds snapshot slot aborts the whole bid -/

/-- C8: when an otherwise-acceptable bid computes a slot outside the
preallocated track, `handle_bid` reports `WinningDataCorrupted`, the message
traps, and — the host rolling back the trapped transaction — the persisted
state is unchanged and no transfer survives. -/
theorem bid_corrupted_no_effect (s : AuctionState) (bidder bid block offset : Nat)
    (hactive : activeOffset s block = some offset)
    (hacc : ∀ w, s.winning = some w → getBal s.balances w ≤ bid)
    (hoob : s.winning_data.length ≤ offset) :
    (handle_bid s bidder bid block).result =
      Except.error BidError.WinningDataCorrupted ∧
    bid_msg s bidder bid block = (some BidError.WinningDataCorrupted, s, []) := by
  have hhb : handle_bid s bidder bid block = acceptBid s bidder bid offset := by
    rcases hw : s.winning with _ | w
    · simp only [handle_bid, hactive, hw]
    · have hnlt : ¬ bid < getBal s.balances w := by
        have := hacc w hw
        omega
      simp only [handle_bid, hactive, hw, if_neg hnlt]
  have hab : (acceptBid s bidder bid offset).result =
      Except.error BidError.WinningDataCorrupted := by
    unfold acceptBid
    rw [if_neg (show ¬ offset < _ by simpa using Nat.not_lt.mpr hoob)]
  refine ⟨hhb ▸ hab, ?_⟩
  unfold bid_msg
  rw [hhb]
  rcases habv : acceptBid s bidder bid offset with ⟨res, st, tr⟩
  rw [habv] at hab
  simp only at hab
  subst hab
  rfl

/-- Witness for C8: on the empty-track state, Bob's otherwise-acceptable bid
of 105 at an ending-period block traps with `WinningDataCorrupted` and the
persisted state is unchanged with no transfer. -/
theorem bid_corrupted_no_effect_witness :
    (handle_bid shortTrackState 2 105 11).result =
      Except.error BidError.WinningDataCorrupted ∧
    bid_msg shortTrackState 2 105 11 =
      (some BidError.WinningDataCorrupted, shortTrackState, []) := by
  refine bid_corrupted_no_effect shortTrackState 2 105 11 6 (by decide) ?_ (by decide)
  intro w hw
  cases hw
  decide

/-! ## C9: construction-time faults -/

/-- C9 (amended): construction fails exactly when the subject kind is
unsupported (`subject > 1`) or the effective start block (explicit, or the
default `now + 1`) is not strictly in the future.  No asset-identifier check
exists: the counterexample below shows a `Domain` auction constructed with
the cleared hash. -/
theorem newAuction_faults (start_block? : Option Nat)
    (opening_period ending_period subject domain reward owner now : Nat) :
    newAuction start_block? opening_period ending_period subject domain reward
        owner now = none ↔
      1 < subject ∨ start_block?.getD (now + 1) ≤ now := by
  unfold newAuction
  by_cases h1 : 1 < subject
  · simp [h1]
  · by_cases h2 : start_block?.getD (now + 1) ≤ now
    · simp [h1, h2]
    · simp [h1, h2]

/-- Counterexample for C9: the code accepts a `Domain` (subject = 1) auction
whose asset identifier is the cleared hash (modelled as 0) — construction
does not reject a missing asset identifier.  This mirrors the repository's
own `dns_auction_new_works` test (`create_auction(Some(10), 5, 10, 1)` with
`Hash::clear()`). -/
theorem newAuction_missing_asset_cex :
    newAuction (some 10) 5 10 1 0 6 7 0 ≠ none := by decide

/-- Counterexample for C5: a reachable state whose finalized flag is true but
whose resolved winner is `none` — the candle went out before the only bid, and
`detect_winner` finalizes anyway (the code comments call this "fair enough to
be a result").  From here the status is `Ended` with no winner persisted. -/
theorem finalized_without_winner_cex :
    Reachable c5Final ∧ c5Final.finalized = true ∧ c5Final.winner = none ∧
    status c5Final 100 = Status.Ended := by
  refine ⟨?_, rfl, rfl, by decide⟩
  have h0 : Reachable c5Init :=
    Reachable.init (some 1) 1 2 0 0 6 0 0 c5Init (by decide)
  have h1 : Reachable c5Bid :=
    Reachable.bid c5Init 1 100 3 c5Bid [] h0 (by decide)
  exact Reachable.findWinner c5Bid 0 100 85 none c5Final h1 (by decide)

/-! ## C5 (amended): finalization happens only through resolution -/

/-- C5 (amended): the finalized flag is set only by a resolution attempt that
actually blew the candle — the status was `RfDelay` with at least `RF_DELAY`
blocks elapsed, a leading bidder existed, and the draw was mature — and the
persisted winner is exactly the backward scan at the random cutoff, which may
be `none` (so `Ended` with no winner is possible, as the counterexample
shows); bids and payouts never change the flag, so `Ended` is never reached
from time alone. -/
theorem finalized_only_by_resolution :
    (∀ (s : AuctionState) (raw ks block : Nat) (r : Option (Nat × Nat))
        (s' : AuctionState),
      s.finalized = false →
      detect_winner s raw ks block = some (r, s') →
      s'.finalized = true →
      (∃ blocks, status s block = Status.RfDelay blocks ∧ RF_DELAY ≤ blocks) ∧
        s.winning.isSome = true ∧
        s.start_block + s.opening_period - 1 + s.ending_period ≤ ks ∧
        s'.winner = scanTrack s.winning_data (raw % s.ending_period + 1)) ∧
    (∀ (s : AuctionState) (bidder bid block : Nat) (e : Option BidError)
        (ps : AuctionState) (tr : List (Nat × Nat)),
      bid_msg s bidder bid block = (e, ps, tr) → ps.finalized = s.finalized) ∧
    (∀ (s : AuctionState) (caller block : Nat) (ps : AuctionState)
        (tr : List (Nat × Nat)),
      pay_back s caller block = some (ps, tr) → ps.finalized = s.finalized) := by
  refine ⟨?_, ?_, ?_⟩
  · intro s raw ks block r s' hfin h hfin'
    have hwinner : s.winner = none := by
      rcases hw : s.winner with _ | w
      · rfl
      · exfalso
        have : detect_winner s raw ks block = some (some w, s) := by
          simp only [detect_winner, hw]
        rw [this] at h
        injection h with h'
        injection h' with h1 h2
        rw [← h2] at hfin'
        rw [hfin] at hfin'
        simp at hfin'
    rcases detect_winner_inv s raw ks block r s' hwinner h with ⟨hs, _⟩ | hinv
    · exfalso
      rw [hs, hfin] at hfin'
      simp at hfin'
    · obtain ⟨blocks, hst, hrf, hwing, hmat, hr, hs'⟩ := hinv
      refine ⟨⟨blocks, hst, hrf⟩, hwing, hmat, ?_⟩
      rw [hs', ← hr]
      rcases r with _ | ⟨w, b⟩ <;> rfl
  · intro s bidder bid block e ps tr h
    exact (bid_msg_state s bidder bid block e ps tr h).1
  · intro s caller block ps tr h
    exact (pay_back_state s caller block ps tr h).2.1

/-- Witness for C5 (amended): the concrete run `c5Bid` resolved at block 85
with a mature draw; all hypotheses discharged concretely. -/
theorem finalized_only_by_resolution_witness :
    ((∃ blocks, status c5Bid 85 = Status.RfDelay blocks ∧ RF_DELAY ≤ blocks) ∧
      c5Bid.winning.isSome = true ∧
      c5Bid.start_block + c5Bid.opening_period - 1 + c5Bid.ending_period ≤ 100 ∧
      c5Final.winner = scanTrack c5Bid.winning_data (0 % c5Bid.ending_period + 1)) ∧
    c5Bid.finalized = c5Init.finalized ∧
    c5Final.finalized = c5Final.finalized := by
  refine ⟨?_, ?_, rfl⟩
  · exact finalized_only_by_resolution.1 c5Bid 0 100 85 none c5Final rfl
      (by decide) rfl
  · exact finalized_only_by_resolution.2.1 c5Init 1 100 3 none c5Bid [] (by decide)

/-! ## C6: the maturity protocol -/

/-- C6 (amended): the resolver never persists a winner from a draw whose
`known_since` precedes the last block of the ending window; and on an
immature draw (in the state where the candle would otherwise be blown) the
call traps — the transaction reverts, so the persisted state is unchanged and
the call can simply be retried later. -/
theorem resolve_maturity :
    (∀ (s : AuctionState) (raw ks block : Nat) (r : Option (Nat × Nat))
        (s' : AuctionState) (w b : Nat),
      s.winner = none →
      detect_winner s raw ks block = some (r, s') →
      s'.winner = some (w, b) →
      s.start_block + s.opening_period - 1 + s.ending_period ≤ ks) ∧
    (∀ (s : AuctionState) (raw ks block blocks : Nat),
      s.winner = none →
      status s block = Status.RfDelay blocks →
      RF_DELAY ≤ blocks →
      s.winning.isSome = true →
      ks < s.start_block + s.opening_period - 1 + s.ending_period →
      detect_winner s raw ks block = none ∧
      find_winner_msg s raw ks block = (true, none, s)) := by
  constructor
  · intro s raw ks block r s' w b hwinner h hw'
    rcases detect_winner_inv s raw ks block r s' hwinner h with ⟨hs, _⟩ | hinv
    · exfalso
      rw [hs, hwinner] at hw'
      simp at hw'
    · obtain ⟨blocks, hst, hrf, hwing, hmat, hr, hs'⟩ := hinv
      exact hmat
  · intro s raw ks block blocks hwinner hst hrf hwing himm
    have hbc : blow_candle s raw ks = none := by
      simp only [blow_candle]
      rw [if_neg (by omega)]
    have hdw : detect_winner s raw ks block = none := by
      simp only [detect_winner, hwinner, hst, if_pos hrf, hwing, if_pos, hbc]
    refine ⟨hdw, ?_⟩
    unfold find_winner_msg
    rw [hdw]

/-- Counterexample for C6 as stated: on the concrete state `c5Bid` with an
immature draw (`known_since = 0`, before the ending window's last block 3),
resolution does NOT "return nothing leaving the state unchanged" — it traps
(the `expect` panic in `blow_candle`), modelled by `detect_winner` returning
the outer `none` rather than `some (none, c5Bid)`. -/
theorem resolve_immature_traps_cex :
    detect_winner c5Bid 0 0 85 ≠ some (none, c5Bid) ∧
    detect_winner c5Bid 0 0 85 = none := by
  constructor
  · decide
  · decide

/-- Witness for C6: both conjuncts applied concretely — the mature run
`c5Bid → c5Final` (block 85, `known_since = 100`) for part one, and an
immature draw (`known_since = 0`) at block 90 for part two. -/
theorem resolve_maturity_witness :
    c7Bid2.start_block + c7Bid2.opening_period - 1 + c7Bid2.ending_period ≤ 100 ∧
    (detect_winner c5Bid 7 0 90 = none ∧
      find_winner_msg c5Bid 7 0 90 = (true, none, c5Bid)) := by
  constructor
  · exact resolve_maturity.1 c7Bid2 0 100 85 (some (1, 100)) c7Final 1 100 rfl
      (by decide) rfl
  · exact resolve_maturity.2 c5Bid 7 0 90 86 rfl (by decide) (by decide)
      (by decide) (by decide)

/-! ## C7: settlement of the winning bid at resolution -/

/-- Counterexample for C7 as stated: in the reachable run
`c5Init → c7Bid1 → c7Bid2 → c7Final`, resolution succeeds with winner
`(Alice, 100)` taken from slot 0, but Alice's escrow immediately after
resolution is 1 (her later, losing re-bid of 101 minus the winning 100) —
not zero.  The code decrements the winner's escrow by the winning amount,
it does not zero it (the repository's `winner_gets_change_back` test asserts
exactly this leftover change of 1). -/
theorem winner_escrow_not_zeroed_cex :
    Reachable c7Final ∧ c7Final.winner = some (1, 100) ∧
    lookup c7Final.balances 1 = some 1 ∧ lookup c7Final.balances 1 ≠ some 0 := by
  refine ⟨?_, rfl, rfl, by decide⟩
  have h0 : Reachable c5Init :=
    Reachable.init (some 1) 1 2 0 0 6 0 0 c5Init (by decide)
  have h1 : Reachable c7Bid1 :=
    Reachable.bid c5Init 1 100 1 c7Bid1 [] h0 (by decide)
  have h2 : Reachable c7Bid2 :=
    Reachable.bid c7Bid1 1 101 3 c7Bid2 [(1, 100)] h1 (by decide)
  exact Reachable.findWinner c7Bid2 0 100 85 (some (1, 100)) c7Final h2 (by decide)

/-- C7 (amended): when resolution succeeds with winner `(w, b)` and `w` held
escrow `bw`, the winner's escrow is decremented by exactly the winning amount
`b` (to `bw - b`, which is zero precisely when their final escrow equals the
winning bid; any excess from a later outbid re-bid remains as change), the
amount `b` is credited to the owner exactly once — subsequent resolution
calls return the stored winner and change nothing — and a later claim by the
winner transfers only the change `bw - b`, never any part of `b`. -/
theorem resolution_settlement (s : AuctionState) (raw ks block w b bw : Nat)
    (s' : AuctionState)
    (hwinner : s.winner = none)
    (h : detect_winner s raw ks block = some (some (w, b), s'))
    (hbw : lookup s.balances w = some bw)
    (hwo : w ≠ s.owner) :
    s'.winner = some (w, b) ∧
    s'.finalized = true ∧
    lookup s'.balances w = some (bw - b) ∧
    lookup s'.balances s.owner = some (getBal s.balances s.owner + b) ∧
    (∀ raw2 ks2 block2,
      detect_winner s' raw2 ks2 block2 = some (some (w, b), s')) ∧
    (∀ block2 s2 tr, pay_back s' w block2 = some (s2, tr) →
      tr = if 0 < bw - b then [(w, bw - b)] else []) := by
  rcases detect_winner_inv s raw ks block (some (w, b)) s' hwinner h with
    ⟨_, hr⟩ | hinv
  · exact absurd hr (by simp)
  · obtain ⟨blocks, hst, hrf, hwing, hmat, hr, hs'⟩ := hinv
    simp only at hs'
    have hbal1 : modifyKey s.balances w (fun x => x - b) =
        insertKey s.balances w (bw - b) := by
      unfold modifyKey
      rw [hbw]
    have hlookup1 : lookup (modifyKey s.balances w (fun x => x - b)) w =
        some (bw - b) := by
      rw [hbal1]
      exact lookup_insertKey_self _ _ _
    have hlookupo : lookup (modifyKey s.balances w (fun x => x - b)) s.owner =
        lookup s.balances s.owner := by
      rw [hbal1]
      exact lookup_insertKey_ne _ _ _ _ (Ne.symm hwo)
    have hbalw : lookup s'.balances w = some (bw - b) := by
      rw [hs']
      show lookup (modifyOrInsert (modifyKey s.balances w (fun x => x - b))
        s.owner (fun x => x + b) b) w = some (bw - b)
      unfold modifyOrInsert
      rcases ho : lookup (modifyKey s.balances w (fun x => x - b)) s.owner with _ | v
      · rw [lookup_insertKey_ne _ _ _ _ hwo]
        exact hlookup1
      · rw [lookup_insertKey_ne _ _ _ _ hwo]
        exact hlookup1
    have hbalo : lookup s'.balances s.owner =
        some (getBal s.balances s.owner + b) := by
      rw [hs']
      show lookup (modifyOrInsert (modifyKey s.balances w (fun x => x - b))
        s.owner (fun x => x + b) b) s.owner = some (getBal s.balances s.owner + b)
      unfold modifyOrInsert
      rcases ho : lookup (modifyKey s.balances w (fun x => x - b)) s.owner with _ | v
      · rw [lookup_insertKey_self]
        rw [hlookupo] at ho
        unfold getBal
        rw [ho]
        simp
      · rw [lookup_insertKey_self]
        rw [hlookupo] at ho
        unfold getBal
        rw [ho]
        rfl
    have hwin' : s'.winner = some (w, b) := by
      rw [hs']
    have hfin' : s'.finalized = true := by
      rw [hs']
    refine ⟨hwin', hfin', hbalw, hbalo, ?_, ?_⟩
    · intro raw2 ks2 block2
      simp only [detect_winner, hwin']
    · intro block2 s2 tr hpb
      unfold pay_back at hpb
      by_cases hend : status s' block2 = Status.Ended
      · rw [if_pos hend, hwin'] at hpb
        simp only at hpb
        rw [hbalw] at hpb
        simp only at hpb
        by_cases hc : 0 < bw - b
        · rw [if_pos hc] at hpb
          injection hpb with hpb'
          injection hpb' with h1 h2
          rw [if_pos hc]
          exact h2.symm
        · rw [if_neg hc] at hpb
          injection hpb with hpb'
          injection hpb' with h1 h2
          rw [if_neg hc]
          exact h2.symm
      · rw [if_neg hend] at hpb
        exact absurd hpb (by simp)

/-- Witness for C7 (amended): applied to the concrete run — Alice's escrow
goes from 101 to 1 while the owner receives the winning 100, re-resolution is
a no-op, and Alice's later claim refunds exactly her change 1. -/
theorem resolution_settlement_witness :
    c7Final.winner = some (1, 100) ∧
    c7Final.finalized = true ∧
    lookup c7Final.balances 1 = some (101 - 100) ∧
    lookup c7Final.balances c7Bid2.owner =
      some (getBal c7Bid2.balances c7Bid2.owner + 100) ∧
    (∀ raw2 ks2 block2,
      detect_winner c7Final raw2 ks2 block2 = some (some (1, 100), c7Final)) ∧
    (∀ block2 s2 tr, pay_back c7Final 1 block2 = some (s2, tr) →
      tr = if 0 < 101 - 100 then [(1, 101 - 100)] else []) :=
  resolution_settlement c7Bid2 0 100 85 1 100 101 c7Final rfl (by decide)
    (by decide) (by decide)

/-! ## C10: the leading bidder always has a ledger entry before finalization -/

/-- In every reachable, not-yet-finalized state, a recorded leading bidder
has an entry in the balances ledger: the entry is inserted before `winning`
is updated, and entries are only removed by settlement, which requires the
`Ended` status (hence a finalized state). -/
lemma reachable_inv (s : AuctionState) (hs : Reachable s) :
    s.finalized = false →
    ∀ w, s.winning = some w → (lookup s.balances w).isSome = true := by
  induction hs with
  | init sb op ep subj dom rc own now s h =>
    intro hfin w hw
    exfalso
    unfold newAuction at h
    by_cases h1 : 1 < subj
    · rw [if_pos h1] at h
      exact absurd h (by simp)
    · rw [if_neg h1] at h
      simp only at h
      by_cases h2 : sb.getD (now + 1) ≤ now
      · rw [if_pos h2] at h
        exact absurd h (by simp)
      · rw [if_neg h2] at h
        injection h with h'
        rw [← h'] at hw
        simp at hw
  | bid s bidder bid block s' tr hsR h ih =>
    intro hfin w hw
    obtain ⟨hfineq, hwineq, hsucc⟩ := bid_msg_state s bidder bid block none s' tr h
    obtain ⟨hwinning, hlookup⟩ := hsucc rfl
    rw [hwinning] at hw
    injection hw with hww
    rw [← hww, hlookup]
    rfl
  | findWinner s raw ks block r s' hsR h ih =>
    intro hfin w hw
    rcases hwres : s.winner with _ | wv
    · rcases detect_winner_inv s raw ks block r s' hwres h with ⟨hss, _⟩ | hinv
      · rw [hss] at hfin hw ⊢
        exact ih hfin w hw
      · exfalso
        obtain ⟨blocks, _, _, _, _, _, hs'⟩ := hinv
        rw [hs'] at hfin
        rcases r with _ | ⟨ww, bb⟩ <;> simp at hfin
    · have hdw : detect_winner s raw ks block = some (some wv, s) := by
        simp only [detect_winner, hwres]
      rw [hdw] at h
      injection h with h'
      injection h' with h1 h2
      rw [← h2] at hfin hw ⊢
      exact ih hfin w hw
  | payout s caller block s' tr hsR h ih =>
    intro hfin w hw
    exfalso
    obtain ⟨hend, hfineq, _, _⟩ := pay_back_state s caller block s' tr h
    have hsf : s.finalized = true := status_Ended_finalized s block hend
    rw [hfineq, hsf] at hfin
    simp at hfin

/-- C10: in every reachable state with the finalized flag still false, a
recorded leading bidder has a balances entry, so `get_winning`'s unwrapped
lookup of the leading bidder's balance cannot trap before finalization. -/
theorem get_winning_safe (s : AuctionState) (hs : Reachable s)
    (hfin : s.finalized = false) :
    (∀ w, s.winning = some w → (lookup s.balances w).isSome = true) ∧
    get_winning s ≠ none := by
  have hinv := reachable_inv s hs hfin
  refine ⟨hinv, ?_⟩
  rcases hw : s.winning with _ | w
  · simp only [get_winning, hw]
    simp
  · have hsome := hinv w hw
    rcases hl : lookup s.balances w with _ | b
    · rw [hl] at hsome
      simp at hsome
    · simp only [get_winning, hw, hl]
      simp

/-- Witness for C10: the reachable pre-finalization state `c5Bid` (leading
bidder Alice), where `get_winning` indeed does not trap. -/
theorem get_winning_safe_witness :
    (∀ w, c5Bid.winning = some w → (lookup c5Bid.balances w).isSome = true) ∧
    get_winning c5Bid ≠ none := by
  have h0 : Reachable c5Init :=
    Reachable.init (some 1) 1 2 0 0 6 0 0 c5Init (by decide)
  have h1 : Reachable c5Bid :=
    Reachable.bid c5Init 1 100 3 c5Bid [] h0 (by decide)
  exact get_winning_safe c5Bid h1 rfl
